import Mathlib

/-!
Verification of the crawl/collect/classify pipeline of `generate_csp.py`
(a CSP-policy generator that spiders a site, collects external resource
URLs and classifies them into CSP directives).

The Python source is shallowly embedded: Python `set`s become duplicate-free
`List`s (insertion keeps first occurrence), the `while` crawl loop becomes a
well-founded recursive function over the crawl state, and the behaviour of the
external collaborators (`requests` fetch, `urllib.parse`, `re`,
BeautifulSoup's tag scan) is modelled by executable Lean functions restricted
to the fragment the program exercises.
-/

namespace CSPGen

/-! ## Generic list-as-set helpers (model of Python `set` operations) -/

/-- Model of Python `set.add`: insert an element only if it is not present. -/
def addToSetList (x : String) (l : List String) : List String :=
  if x ∈ l then l else l ++ [x]

/-- Model of Python `set.update`: insert every element of `b` into `a`. -/
def listUnion (a b : List String) : List String :=
  b.foldl (fun acc x => addToSetList x acc) a

/-- Lexicographic code-point comparison of strings (Python string `<=`). -/
def strLeB : List Char → List Char → Bool
  | [], _ => true
  | _ :: _, [] => false
  | a :: as, b :: bs =>
    if a.toNat < b.toNat then true
    else if b.toNat < a.toNat then false
    else strLeB as bs

/-- Insertion into an ascending list, comparing strings by code points
(model of Python string comparison used by `sorted`). -/
def insertSorted (x : String) : List String → List String
  | [] => [x]
  | y :: rest => if strLeB x.data y.data then x :: y :: rest else y :: insertSorted x rest

/-- Model of Python `sorted(list(s))` on a list of strings. -/
def sortStrings (l : List String) : List String :=
  l.foldr insertSorted []

/-- Boolean check that `needle` starts `hay` (used for the substring test). -/
def listStartsWith : List Char → List Char → Bool
  | [], _ => true
  | _ :: _, [] => false
  | a :: n, b :: h => a == b && listStartsWith n h

/-- Model of the Python `in` substring test on strings. -/
def containsSub (needle : List Char) : List Char → Bool
  | [] => listStartsWith needle []
  | c :: rest => listStartsWith needle (c :: rest) || containsSub needle rest

/-! ## Model of `urllib.parse` (restricted to the fragment the program uses)

`urlparse` follows CPython `urlsplit`: an optional scheme (letters, digits,
`+`, `-`, `.`, starting with a letter, before the first `:`, lower-cased), a
netloc after `//` running to the next `/`, `?` or `#`, then the fragment is
split at the first `#` and the query at the first `?`. Parameter (`;`)
splitting is omitted; no URL in this development uses it. -/

structure URLParts where
  scheme : String
  netloc : String
  path : String
  query : String
  fragment : String
deriving Repr, DecidableEq

/-- Characters allowed in a URL scheme by `urllib.parse`. -/
def isSchemeChar (c : Char) : Bool :=
  c.isAlphanum || c == '+' || c == '-' || c == '.'

/-- Validity test of a scheme before the first `:` (CPython `urlsplit`). -/
def schemeOKB (s : List Char) : Bool :=
  s.contains ':' && !(s.takeWhile (fun c => c != ':')).isEmpty &&
    (match s with | c :: _ => c.isAlpha | [] => false) &&
    (s.takeWhile (fun c => c != ':')).all isSchemeChar

/-- Scheme component: the lower-cased text before the first `:` when it is a
valid scheme, empty otherwise. -/
def schemePart (s : List Char) : List Char :=
  if schemeOKB s then (s.takeWhile (fun c => c != ':')).map Char.toLower else []

/-- Text after the scheme separator (the whole input when no scheme). -/
def afterScheme (s : List Char) : List Char :=
  if schemeOKB s then (s.dropWhile (fun c => c != ':')).tail else s

/-- Characters terminating a netloc. -/
def isNetlocEnd (c : Char) : Bool :=
  c == '/' || c == '?' || c == '#'

/-- Leading `//` test for netloc presence. -/
def hasNetlocMark : List Char → Bool
  | '/' :: '/' :: _ => true
  | _ => false

/-- Netloc component: after a leading `//`, up to the next `/`, `?` or `#`. -/
def netlocPart (rest : List Char) : List Char :=
  if hasNetlocMark rest then (rest.drop 2).takeWhile (fun c => !isNetlocEnd c)
  else []

/-- Text after the netloc (the input itself when there is no netloc). -/
def afterNetloc (rest : List Char) : List Char :=
  if hasNetlocMark rest then (rest.drop 2).dropWhile (fun c => !isNetlocEnd c)
  else rest

/-- Model of `urllib.parse.urlparse` (CPython `urlsplit` algorithm). -/
def urlparse (url : String) : URLParts :=
  let s := url.data
  let rest := afterScheme s
  let rest2 := afterNetloc rest
  let pathq := rest2.takeWhile (fun c => c != '#')
  ⟨String.mk (schemePart s),
    String.mk (netlocPart rest),
    String.mk (pathq.takeWhile (fun c => c != '?')),
    String.mk ((pathq.dropWhile (fun c => c != '?')).tail),
    String.mk ((rest2.dropWhile (fun c => c != '#')).tail)⟩

/-- Model of `urllib.parse.urlunsplit` for the cases `urljoin` produces. -/
def urlunsplit (p : URLParts) : String :=
  (if p.scheme ≠ "" then p.scheme ++ ":" else "") ++
  (if p.netloc ≠ "" then "//" ++ p.netloc else "") ++
  p.path ++
  (if p.query ≠ "" then "?" ++ p.query else "") ++
  (if p.fragment ≠ "" then "#" ++ p.fragment else "")

/-- Base path with its last segment removed, for relative-reference merging. -/
def dirOfPath (bpath : List Char) : List Char :=
  ((bpath.reverse.dropWhile (fun c => c != '/')).reverse)

/-- Model of `urllib.parse.urljoin` for the cases arising here: absolute
links, scheme-relative and host-relative links, and plain relative paths
(dot-segment normalization omitted; no URL in this development uses it). -/
def urljoin (base url : String) : String :=
  if base = "" then url
  else if url = "" then base
  else
    let b := urlparse base
    let u := urlparse url
    let scheme := if u.scheme = "" then b.scheme else u.scheme
    if scheme ≠ b.scheme then url
    else if u.netloc ≠ "" then
      urlunsplit { u with scheme := scheme }
    else if u.path = "" then
      urlunsplit { b with query := if u.query ≠ "" then u.query else b.query,
                          fragment := u.fragment }
    else if u.path.data.head? = some '/' then
      urlunsplit ⟨scheme, b.netloc, u.path, u.query, u.fragment⟩
    else
      urlunsplit ⟨scheme, b.netloc, String.mk (dirOfPath b.path.data ++ u.path.data),
        u.query, u.fragment⟩

/-! ## Page content model

BeautifulSoup is an external library; a fetched page is modelled as its raw
text together with the tag/attribute pairs that
`soup.find_all(["a", "link", "script", "img", "iframe"])` would report. -/

/-- One HTML tag as seen by the tag scan: its name and its `href` / `src`
attributes (absent attributes are `none`, as `tag.get` returns `None`). -/
structure Tag where
  name : String
  href : Option String := none
  src : Option String := none

/-- A fetched page: raw text plus the parsed tag list. -/
structure Html where
  raw : String
  tags : List Tag

/-- Attribute consulted for a tag: `href` for `a` and `link`, else `src`
(line 57 of the source). -/
def tagLink (t : Tag) : Option String :=
  if t.name = "a" ∨ t.name = "link" then t.href else t.src

/-- Tag names the internal-link scan looks at (line 56 of the source). -/
def linkTagNames : List String := ["a", "link", "script", "img", "iframe"]

/-- Step function of `extract_internal_links`: process one tag. -/
def internalStep (base_url domain : String) (acc : List String) (t : Tag) :
    List String :=
  if t.name ∈ linkTagNames then
    match tagLink t with
    | some link =>
      if link ≠ "" then
        let parsed := urlparse (urljoin base_url link)
        if parsed.netloc = domain then
          addToSetList (parsed.scheme ++ "://" ++ parsed.netloc ++ parsed.path) acc
        else acc
      else acc
    | none => acc
  else acc

/-- Embedding of `extract_internal_links(html, base_url, domain)`
(lines 42 to 65 of the source): resolve each tag reference against
`base_url`, keep it when its host equals `domain` exactly, and record
scheme + host + path. -/
def extract_internal_links (html : Html) (base_url domain : String) : List String :=
  html.tags.foldl (internalStep base_url domain) []

/-- Shape of every URL the internal-link scan produces from one attribute
value `link`: the join of `link` against the page URL parses to a host equal
to `domain`, and the recorded URL is its scheme, host and path. -/
def InternalWitness (b d link u : String) : Prop :=
  (urlparse (urljoin b link)).netloc = d ∧
  u = (urlparse (urljoin b link)).scheme ++ "://" ++
      (urlparse (urljoin b link)).netloc ++ (urlparse (urljoin b link)).path

/-- One tag yields a recorded internal URL. -/
def TagYields (b d : String) (t : Tag) (u : String) : Prop :=
  t.name ∈ linkTagNames ∧
  ∃ link, tagLink t = some link ∧ link ≠ "" ∧ InternalWitness b d link u

/-- Characters the regex `https?://[^\s"\x27<>]+` accepts in the body of a
URL match (Python `\s` restricted to ASCII whitespace). -/
def isURLChar (c : Char) : Bool :=
  !(c == ' ' || c == '\t' || c == '\n' || c == '\r' || c == '\x0b' ||
    c == '\x0c' || c == '"' || c == '\'' || c == '<' || c == '>')

/-- Leftmost non-overlapping scan of `re.findall(r"https?://[^\s\x22\x27<>]+", html)`:
at each position try to match a literal `http://` or `https://` followed by a
non-empty greedy run of URL body characters; on success continue after the
match, otherwise advance one character. The fuel argument is the length of
the list, which bounds the number of scan steps. -/
def urlScanGo : Nat → List Char → List String
  | 0, _ => []
  | _ + 1, [] => []
  | n + 1, 'h' :: 't' :: 't' :: 'p' :: 's' :: ':' :: '/' :: '/' :: rest =>
    let body := rest.takeWhile isURLChar
    if body.isEmpty then
      urlScanGo n ('t' :: 't' :: 'p' :: 's' :: ':' :: '/' :: '/' :: rest)
    else
      String.mk ("https://".data ++ body) :: urlScanGo n (rest.dropWhile isURLChar)
  | n + 1, 'h' :: 't' :: 't' :: 'p' :: ':' :: '/' :: '/' :: rest =>
    let body := rest.takeWhile isURLChar
    if body.isEmpty then
      urlScanGo n ('t' :: 't' :: 'p' :: ':' :: '/' :: '/' :: rest)
    else
      String.mk ("http://".data ++ body) :: urlScanGo n (rest.dropWhile isURLChar)
  | n + 1, _ :: rest => urlScanGo n rest

/-- All absolute `http(s)` URL matches in a raw text. -/
def urlScan (s : String) : List String :=
  urlScanGo s.data.length s.data

/-- Embedding of `extract_external_urls(html, base_domain)` (lines 67 to 83
of the source): keep each raw-text URL match whose host is non-empty and
does not contain `base_domain` as a substring (Python `not in`). -/
def extract_external_urls (html : Html) (base_domain : String) : List String :=
  (urlScan html.raw).foldl
    (fun acc m =>
      let parsed := urlparse m
      if !parsed.netloc.isEmpty && !(containsSub base_domain.data parsed.netloc.data)
      then addToSetList m acc
      else acc)
    []

/-! ## Resource classifier -/

/-- Match of one extension alternative followed by `(\?|$)`: the candidate
characters must follow, then either the string ends or a `?` comes next. -/
def matchExtAt : List Char → List Char → Bool
  | [], cs => cs.isEmpty || cs.head? == some '?'
  | _ :: _, [] => false
  | a :: e, c :: cs => a == c && matchExtAt e cs

/-- Embedding of `re.search` for the patterns of `categorize_resource`: scan
every position of the URL for a `.` followed by one of the extension
alternatives and then `?` or end of string. -/
def extSearch (exts : List (List Char)) : List Char → Bool
  | [] => false
  | c :: rest =>
    (c == '.' && exts.any (fun e => matchExtAt e rest)) || extSearch exts rest

/-- Embedding of `categorize_resource(url)` (lines 85 to 106 of the source):
first matching rule wins, `default-src` otherwise. -/
def categorize_resource (url : String) : String :=
  if extSearch ["js".data] url.data then "script-src"
  else if extSearch ["css".data] url.data then "style-src"
  else if extSearch ["woff2".data, "woff".data, "ttf".data, "otf".data] url.data
    then "font-src"
  else if extSearch ["jpg".data, "jpeg".data, "png".data, "gif".data,
    "svg".data, "webp".data] url.data then "img-src"
  else if extSearch ["json".data] url.data then "connect-src"
  else "default-src"

/-- Occurrence of `.ext` immediately followed by `?` or the end of the
string, anywhere in the URL: the exact semantics of the source's
`re.search` patterns. -/
def ExtOccurs (e : String) (url : String) : Prop :=
  ∃ pre suf : List Char, url.data = pre ++ '.' :: (e.data ++ suf) ∧
    (suf = [] ∨ ∃ t, suf = '?' :: t)

/-! ## Policy builder -/

/-- The literal `'self'` CSP source token. -/
def selfToken : String := String.mk ['\'', 's', 'e', 'l', 'f', '\'']

/-- Model of `csp[directive].add(domain)` on a `defaultdict(set)` rendered as
an association list in key-insertion order. -/
def cspInsert (csp : List (String × List String)) (d dom : String) :
    List (String × List String) :=
  match csp with
  | [] => [(d, [dom])]
  | (k, v) :: rest =>
    if k = d then (k, addToSetList dom v) :: rest else (k, v) :: cspInsert rest d dom

/-- Embedding of `build_csp(urls)` (lines 108 to 125 of the source):
classify every URL, bucket its host by directive, add `'self'` to every
populated directive, and sort each origin set. -/
def build_csp (urls : List String) : List (String × List String) :=
  let csp := urls.foldl
    (fun acc u => cspInsert acc (categorize_resource u) (urlparse u).netloc) []
  let csp := csp.map (fun kv => (kv.1, addToSetList selfToken kv.2))
  csp.map (fun kv => (kv.1, sortStrings kv.2))

/-- Directive lookup in a built policy. -/
def cspLookup (csp : List (String × List String)) (d : String) :
    Option (List String) :=
  (csp.find? (fun kv => kv.1 == d)).map (fun kv => kv.2)

/-! ## Crawler

The `while queue and len(visited) < max_pages` loop of `spider_and_audit`
(lines 178 to 191 of the source). The fetch collaborator is a parameter
(`fetch_html` wraps the network; a failed fetch is `none`). The module-global
`visited` set is threaded explicitly: it enters as the state left by earlier
invocations in the same process and the final value is returned. The loop
additionally returns the list of URLs passed to the fetcher, in order, as an
observation of the fetch attempts; `visited.add(url)` and the fetch happen
together in the source, so the log grows exactly with `visited`.

The loop terminates because every iteration either consumes a queue entry
without touching `visited` or grows `visited`, which the guard bounds by
`max_pages`; the lexicographic measure `(max_pages - |visited|, |queue|)`
decreases. `spiderLoopFuel` is the same step function indexed by fuel, giving
a kernel-computable version used to evaluate concrete crawls. -/

/-- Fuel-indexed version of the crawl loop; `none` when fuel runs out. -/
def spiderLoopFuel (fetch : String → Option Html) (b d : String) (N : Nat) :
    Nat → List String → List String → List String → List String →
    Option (List String × List String × List String)
  | 0, _, _, _, _ => none
  | fuel + 1, visited, queue, ext, log =>
    match queue with
    | [] => some (visited, ext, log)
    | url :: rest =>
      if visited.length < N then
        if url ∈ visited then
          spiderLoopFuel fetch b d N fuel visited rest ext log
        else
          match fetch url with
          | none =>
            spiderLoopFuel fetch b d N fuel (visited ++ [url]) rest ext (log ++ [url])
          | some html =>
            if html.raw = "" then
              spiderLoopFuel fetch b d N fuel (visited ++ [url]) rest ext (log ++ [url])
            else
              spiderLoopFuel fetch b d N fuel (visited ++ [url])
                (rest ++ (extract_internal_links html b d).filter
                  (fun u => decide (u ∉ visited ++ [url])))
                (listUnion ext (extract_external_urls html d))
                (log ++ [url])
      else some (visited, ext, log)

/-- Embedding of the crawl loop itself (returns final visited set, external
URL set and fetch log). -/
def spiderLoop (fetch : String → Option Html) (b d : String) (N : Nat)
    (visited queue ext log : List String) :
    List String × List String × List String :=
  match queue with
  | [] => (visited, ext, log)
  | url :: rest =>
    if _h : visited.length < N then
      if url ∈ visited then
        spiderLoop fetch b d N visited rest ext log
      else
        match fetch url with
        | none =>
          spiderLoop fetch b d N (visited ++ [url]) rest ext (log ++ [url])
        | some html =>
          if html.raw = "" then
            spiderLoop fetch b d N (visited ++ [url]) rest ext (log ++ [url])
          else
            spiderLoop fetch b d N (visited ++ [url])
              (rest ++ (extract_internal_links html b d).filter
                (fun u => decide (u ∉ visited ++ [url])))
              (listUnion ext (extract_external_urls html d))
              (log ++ [url])
    else (visited, ext, log)
termination_by (N - visited.length, queue.length)
decreasing_by
  all_goals first
    | (apply Prod.Lex.right; simp)
    | (apply Prod.Lex.left; simp only [List.length_append, List.length_singleton]; omega)

/-- Embedding of `spider_and_audit(base_url, max_pages)` (lines 160 to 193 of
the source), with the fetch collaborator and the process-global `visited` set
passed explicitly. Returns the built policy together with the final global
`visited` set and the fetch log. -/
def spider_and_audit (fetch : String → Option Html) (visited : List String)
    (base_url : String) (max_pages : Nat) :
    List (String × List String) × List String × List String :=
  let domain := (urlparse base_url).netloc
  let r := spiderLoop fetch base_url domain max_pages visited [base_url] [] []
  (build_csp r.2.1, r.1, r.2.2)

/-! ## Concrete scenarios

The HTML values are written as raw text together with the tag list that
BeautifulSoup's `find_all(["a", "link", "script", "img", "iframe"])` reports
for that text. -/

/-- Page referencing one third-party script whose host contains the seed
host as a substring. -/
def htmlC1 : Html :=
  ⟨"<script src=\"https://notexample.com/x.js\"></script>",
    [⟨"script", none, some "https://notexample.com/x.js"⟩]⟩

/-- Seed page of the end-to-end scenario: two external resources and one
same-origin link. -/
def seedHtml : Html :=
  ⟨"<a href=\"https://example.com/page2\">x</a><script src=\"https://cdn.other.com/a.js\"></script><img src=\"https://img.other.com/b.png\"/>",
    [⟨"a", some "https://example.com/page2", none⟩,
     ⟨"script", none, some "https://cdn.other.com/a.js"⟩,
     ⟨"img", none, some "https://img.other.com/b.png"⟩]⟩

/-- Second page of the end-to-end scenario: one external font. -/
def page2Html : Html :=
  ⟨"<link href=\"https://fonts.other.com/c.woff2\" rel=\"stylesheet\"/>",
    [⟨"link", some "https://fonts.other.com/c.woff2", none⟩]⟩

/-- Fetch collaborator of the end-to-end scenario. -/
def fetchC8 : String → Option Html := fun u =>
  if u = "https://example.com" then some seedHtml
  else if u = "https://example.com/page2" then some page2Html
  else none

/-- A successful fetch whose body is the empty string. -/
def emptyHtml : Html := ⟨"", []⟩

/-- Fetch collaborator always returning empty content. -/
def fetchEmpty : String → Option Html := fun _ => some emptyHtml

/-- Fetch collaborator always failing. -/
def fetchNone : String → Option Html := fun _ => none

/-! ## Helper lemmas on list-as-set operations -/

theorem mem_addToSetList {x y : String} {l : List String} :
    y ∈ addToSetList x l ↔ y ∈ l ∨ y = x := by
  unfold addToSetList
  split
  · constructor
    · exact Or.inl
    · rintro (h | rfl) <;> assumption
  · simp

theorem addToSetList_nodup {x : String} {l : List String} (h : l.Nodup) :
    (addToSetList x l).Nodup := by
  unfold addToSetList
  split
  · exact h
  · rw [List.nodup_append]
    refine ⟨h, by simp, ?_⟩
    intro a ha hx
    simp only [List.mem_singleton] at hx
    subst hx
    simp_all

theorem mem_insertSorted {x y : String} {l : List String} :
    y ∈ insertSorted x l ↔ y = x ∨ y ∈ l := by
  induction l with
  | nil => simp [insertSorted]
  | cons z rest ih =>
    unfold insertSorted
    split <;> simp_all
    tauto

theorem mem_sortStrings {y : String} {l : List String} :
    y ∈ sortStrings l ↔ y ∈ l := by
  induction l with
  | nil => simp [sortStrings]
  | cons z rest ih =>
    simp only [sortStrings, List.foldr] at *
    rw [mem_insertSorted, ih]
    simp

/-- Membership in `takeWhile` gives the predicate and membership in the
original list. -/
theorem mem_takeWhile {p : Char → Bool} {c : Char} : ∀ {l : List Char},
    c ∈ l.takeWhile p → p c = true ∧ c ∈ l := by
  intro l
  induction l with
  | nil => simp
  | cons a rest ih =>
    simp only [List.takeWhile]
    split
    · intro h
      rcases List.mem_cons.mp h with h | h
      · subst h
        exact ⟨by assumption, by simp⟩
      · exact ⟨(ih h).1, by simp [(ih h).2]⟩
    · simp

/-- Dropping while a predicate holds skips over a block where it holds
everywhere. -/
theorem dropWhile_append_all {p : Char → Bool} {s t : List Char}
    (h : ∀ c ∈ s, p c = true) : (s ++ t).dropWhile p = t.dropWhile p := by
  induction s with
  | nil => simp
  | cons a rest ih =>
    simp only [List.cons_append, List.dropWhile]
    rw [h a (by simp)]
    exact ih (fun c hc => h c (by simp [hc]))

/-! ## Loop lemmas -/

/-- A completed run of the fuel-indexed loop computes the crawl loop. -/
theorem spiderLoopFuel_sound (fetch : String → Option Html) (b d : String)
    (N : Nat) : ∀ fuel visited queue ext log out,
    spiderLoopFuel fetch b d N fuel visited queue ext log = some out →
    spiderLoop fetch b d N visited queue ext log = out := by
  intro fuel
  induction fuel with
  | zero =>
    intro v q e l out h
    simp [spiderLoopFuel] at h
  | succ n ih =>
    intro v q e l out h
    cases q with
    | nil =>
      simp only [spiderLoopFuel] at h
      rw [spiderLoop]
      exact Option.some.inj h
    | cons url rest =>
      by_cases hN : v.length < N
      · by_cases hv : url ∈ v
        · rw [spiderLoop]
          simp only [dif_pos hN, if_pos hv]
          simp only [spiderLoopFuel, if_pos hN, if_pos hv] at h
          exact ih _ _ _ _ _ h
        · cases hf : fetch url with
          | none =>
            rw [spiderLoop]
            simp only [dif_pos hN, if_neg hv, hf]
            simp only [spiderLoopFuel, if_pos hN, if_neg hv, hf] at h
            exact ih _ _ _ _ _ h
          | some html =>
            by_cases hr : html.raw = ""
            · rw [spiderLoop]
              simp only [dif_pos hN, if_neg hv, hf, if_pos hr]
              simp only [spiderLoopFuel, if_pos hN, if_neg hv, hf, if_pos hr] at h
              exact ih _ _ _ _ _ h
            · rw [spiderLoop]
              simp only [dif_pos hN, if_neg hv, hf, if_neg hr]
              simp only [spiderLoopFuel, if_pos hN, if_neg hv, hf, if_neg hr] at h
              exact ih _ _ _ _ _ h
      · rw [spiderLoop]
        simp only [dif_neg hN]
        simp only [spiderLoopFuel, if_neg hN] at h
        exact Option.some.inj h

/-- Crawl-loop invariant, by lexicographic induction on
`(N - |visited|, |queue|)`: the final visited set extends the initial one by
some block `new` of URLs, the fetch log extends by exactly the same block
(every fetch attempt happens together with the `visited` insertion), no URL
is ever added twice, and `visited` never grows beyond `N`. -/
theorem spiderLoop_extendsAux (fetch : String → Option Html) (b d : String)
    (N : Nat) : ∀ (a : Nat) (visited queue ext log : List String),
    N - visited.length ≤ a →
    ∃ new : List String,
      (spiderLoop fetch b d N visited queue ext log).1 = visited ++ new ∧
      (spiderLoop fetch b d N visited queue ext log).2.2 = log ++ new ∧
      (visited.Nodup → (visited ++ new).Nodup) ∧
      (visited.length ≤ N → visited.length + new.length ≤ N) := by
  intro a
  induction a with
  | zero =>
    intro visited queue ext log ha
    have hdone : spiderLoop fetch b d N visited queue ext log
        = (visited, ext, log) := by
      cases queue with
      | nil => rw [spiderLoop]
      | cons url rest =>
        rw [spiderLoop]
        have hN : ¬ visited.length < N := by omega
        simp [dif_neg hN]
    refine ⟨[], ?_, ?_, ?_, ?_⟩ <;> simp [hdone]
  | succ a ih =>
    intro visited queue
    induction queue with
    | nil =>
      intro ext log _
      have hdone : spiderLoop fetch b d N visited [] ext log
          = (visited, ext, log) := by rw [spiderLoop]
      refine ⟨[], ?_, ?_, ?_, ?_⟩ <;> simp [hdone]
    | cons url rest ihq =>
      intro ext log ha
      by_cases hN : visited.length < N
      · by_cases hv : url ∈ visited
        · have := ihq ext log ha
          rw [spiderLoop]
          simpa [dif_pos hN, if_pos hv] using this
        · have hstep : ∀ queue2 ext2,
              ∃ new : List String,
                (spiderLoop fetch b d N (visited ++ [url]) queue2 ext2 (log ++ [url])).1
                  = visited ++ url :: new ∧
                (spiderLoop fetch b d N (visited ++ [url]) queue2 ext2 (log ++ [url])).2.2
                  = log ++ url :: new ∧
                (visited.Nodup → (visited ++ url :: new).Nodup) ∧
                (visited.length ≤ N → visited.length + (url :: new).length ≤ N) := by
            intro queue2 ext2
            have ha2 : N - (visited ++ [url]).length ≤ a := by
              simp only [List.length_append, List.length_singleton]
              omega
            obtain ⟨new, h1, h2, h3, h4⟩ := ih (visited ++ [url]) queue2 ext2 (log ++ [url]) ha2
            refine ⟨new, ?_, ?_, ?_, ?_⟩
            · rw [h1, List.append_assoc]
              rfl
            · rw [h2, List.append_assoc]
              rfl
            · intro hnd
              have : (visited ++ [url]).Nodup := by
                rw [List.nodup_append]
                refine ⟨hnd, by simp, ?_⟩
                intro x hx hx2
                simp only [List.mem_singleton] at hx2
                subst hx2
                exact hv hx
              have := h3 this
              rwa [List.append_assoc] at this
            · intro hle
              have : (visited ++ [url]).length ≤ N := by
                simp only [List.length_append, List.length_singleton]
                omega
              have := h4 this
              simp only [List.length_append, List.length_singleton, List.length_cons] at *
              omega
          cases hf : fetch url with
          | none =>
            obtain ⟨new, h1, h2, h3, h4⟩ := hstep rest ext
            rw [spiderLoop]
            simp only [dif_pos hN, if_neg hv, hf]
            exact ⟨url :: new, h1, h2, h3, h4⟩
          | some html =>
            by_cases hr : html.raw = ""
            · obtain ⟨new, h1, h2, h3, h4⟩ := hstep rest ext
              rw [spiderLoop]
              simp only [dif_pos hN, if_neg hv, hf, if_pos hr]
              exact ⟨url :: new, h1, h2, h3, h4⟩
            · obtain ⟨new, h1, h2, h3, h4⟩ :=
                hstep (rest ++ (extract_internal_links html b d).filter
                  (fun u => decide (u ∉ visited ++ [url])))
                  (listUnion ext (extract_external_urls html d))
              rw [spiderLoop]
              simp only [dif_pos hN, if_neg hv, hf, if_neg hr]
              exact ⟨url :: new, h1, h2, h3, h4⟩
      · have hdone : spiderLoop fetch b d N visited (url :: rest) ext log
            = (visited, ext, log) := by
          rw [spiderLoop]
          simp [dif_neg hN]
        refine ⟨[], ?_, ?_, ?_, ?_⟩ <;> simp [hdone]

/-- Crawl-loop invariant at the top level. -/
theorem spiderLoop_extends (fetch : String → Option Html) (b d : String)
    (N : Nat) (visited queue ext log : List String) :
    ∃ new : List String,
      (spiderLoop fetch b d N visited queue ext log).1 = visited ++ new ∧
      (spiderLoop fetch b d N visited queue ext log).2.2 = log ++ new ∧
      (visited.Nodup → (visited ++ new).Nodup) ∧
      (visited.length ≤ N → visited.length + new.length ≤ N) :=
  spiderLoop_extendsAux fetch b d N N visited queue ext log (Nat.sub_le _ _)

/-- Dequeuing a URL that is already in the visited set just drops it: no
fetch, no state change other than the queue. -/
theorem spiderLoop_skip (fetch : String → Option Html) (b d : String)
    (N : Nat) (visited rest ext log : List String) (url : String)
    (hv : url ∈ visited) :
    spiderLoop fetch b d N visited (url :: rest) ext log =
    spiderLoop fetch b d N visited rest ext log := by
  by_cases hN : visited.length < N
  · rw [spiderLoop]
    simp [dif_pos hN, if_pos hv]
  · have hL : spiderLoop fetch b d N visited (url :: rest) ext log
        = (visited, ext, log) := by
      rw [spiderLoop]
      simp [dif_neg hN]
    have hR : spiderLoop fetch b d N visited rest ext log
        = (visited, ext, log) := by
      cases rest with
      | nil => rw [spiderLoop]
      | cons u r =>
        rw [spiderLoop]
        simp [dif_neg hN]
    rw [hL, hR]

/-! ## Classifier characterization -/

theorem matchExtAt_iff {e cs : List Char} :
    matchExtAt e cs = true ↔
    ∃ suf, cs = e ++ suf ∧ (suf = [] ∨ ∃ t, suf = '?' :: t) := by
  induction e generalizing cs with
  | nil =>
    cases cs with
    | nil =>
      simp only [matchExtAt, List.isEmpty_nil, Bool.true_or, true_iff]
      exact ⟨[], rfl, Or.inl rfl⟩
    | cons c rest =>
      simp only [matchExtAt, List.isEmpty_cons, Bool.false_or, beq_iff_eq,
        List.head?_cons, Option.some.injEq, List.nil_append]
      constructor
      · intro h
        subst h
        exact ⟨'?' :: rest, rfl, Or.inr ⟨rest, rfl⟩⟩
      · rintro ⟨suf, hs, hd⟩
        rcases hd with h | ⟨t, ht⟩
        · rw [h] at hs
          simp at hs
        · rw [ht] at hs
          simp only [List.cons.injEq] at hs
          exact hs.1
  | cons a e ih =>
    cases cs with
    | nil =>
      simp only [matchExtAt, Bool.false_eq_true, false_iff]
      rintro ⟨suf, hs, _⟩
      simp at hs
    | cons c rest =>
      simp only [matchExtAt, Bool.and_eq_true, beq_iff_eq, ih]
      constructor
      · rintro ⟨rfl, suf, rfl, h⟩
        exact ⟨suf, rfl, h⟩
      · rintro ⟨suf, hs, h⟩
        simp only [List.cons_append, List.cons.injEq] at hs
        exact ⟨hs.1.symm, suf, hs.2, h⟩

theorem extSearch_iff {exts : List (List Char)} {cs : List Char} :
    extSearch exts cs = true ↔
    ∃ e ∈ exts, ∃ pre suf, cs = pre ++ '.' :: (e ++ suf) ∧
      (suf = [] ∨ ∃ t, suf = '?' :: t) := by
  induction cs with
  | nil =>
    constructor
    · intro h
      simp [extSearch] at h
    · rintro ⟨e, _, pre, suf, hs, _⟩
      exact absurd hs (by simp)
  | cons c rest ih =>
    simp only [extSearch, Bool.or_eq_true, Bool.and_eq_true, beq_iff_eq,
      List.any_eq_true, ih]
    constructor
    · rintro (⟨rfl, e, he, hm⟩ | ⟨e, he, pre, suf, rfl, h⟩)
      · obtain ⟨suf, rfl, h⟩ := matchExtAt_iff.mp hm
        exact ⟨e, he, [], suf, rfl, h⟩
      · exact ⟨e, he, c :: pre, suf, rfl, h⟩
    · rintro ⟨e, he, pre, suf, hs, h⟩
      cases pre with
      | nil =>
        simp only [List.nil_append, List.cons.injEq] at hs
        left
        refine ⟨hs.1, e, he, matchExtAt_iff.mpr ⟨suf, hs.2, h⟩⟩
      | cons p ps =>
        simp only [List.cons_append, List.cons.injEq] at hs
        right
        exact ⟨e, he, ps, suf, hs.2, h⟩

/-! ## URL component facts -/

theorem charLeIff (a b : Char) : a ≤ b ↔ a.toNat ≤ b.toNat := Iff.rfl

/-- Lower-casing either leaves a character unchanged or lands in `a`-`z`. -/
theorem toLower_eq_or (c : Char) :
    c.toLower = c ∨ ('a' ≤ c.toLower ∧ c.toLower ≤ 'z') := by
  unfold Char.toLower
  simp only []
  by_cases h : c.toNat ≥ 65 ∧ c.toNat ≤ 90
  · rw [if_pos h]
    right
    have hv : (Char.ofNat (c.toNat + 32)).toNat = c.toNat + 32 := by
      rw [Char.ofNat, dif_pos (Or.inl (by omega))]
      rfl
    have ha : ('a' : Char).toNat = 97 := rfl
    have hz : ('z' : Char).toNat = 122 := rfl
    rw [charLeIff, charLeIff, hv, ha, hz]
    omega
  · rw [if_neg h]
    left
    rfl

/-- Lower-casing a scheme character never yields a URL delimiter. -/
theorem toLower_schemeChar_safe {c : Char} (h : isSchemeChar c = true) :
    c.toLower ≠ ':' ∧ c.toLower ≠ '?' ∧ c.toLower ≠ '#' := by
  rcases toLower_eq_or c with he | ⟨h1, h2⟩
  · rw [he]
    refine ⟨?_, ?_, ?_⟩ <;> rintro rfl <;> simp [isSchemeChar] at h
  · have h1 : (97 : Nat) ≤ c.toLower.toNat := h1
    have h2 : c.toLower.toNat ≤ (122 : Nat) := h2
    refine ⟨?_, ?_, ?_⟩ <;> intro he <;>
      rw [show c.toLower.toNat = _ from congrArg Char.toNat he] at h1 h2 <;>
      simp only [show ((':' : Char).toNat = 58) from rfl,
        show (('?' : Char).toNat = 63) from rfl,
        show (('#' : Char).toNat = 35) from rfl] at h1 h2 <;> omega

/-- Every character of a parsed scheme avoids `:`, `?` and `#`. -/
theorem schemePart_safe {s : List Char} {c : Char} (h : c ∈ schemePart s) :
    c ≠ ':' ∧ c ≠ '?' ∧ c ≠ '#' := by
  unfold schemePart at h
  split at h
  · rename_i hok
    obtain ⟨c0, hc0, rfl⟩ := List.mem_map.mp h
    have hall : (s.takeWhile (fun c => c != ':')).all isSchemeChar = true := by
      unfold schemeOKB at hok
      simp only [Bool.and_eq_true] at hok
      exact hok.2
    exact toLower_schemeChar_safe (List.all_eq_true.mp hall c0 hc0)
  · simp at h

/-- Every character of a parsed netloc avoids `/`, `?` and `#`. -/
theorem netlocPart_safe {rest : List Char} {c : Char} (h : c ∈ netlocPart rest) :
    c ≠ '/' ∧ c ≠ '?' ∧ c ≠ '#' := by
  unfold netlocPart at h
  split at h
  · have := (mem_takeWhile h).1
    simp [isNetlocEnd] at this
    tauto
  · simp at h

/-- Every character of a parsed path avoids `?` and `#`. -/
theorem pathPart_safe {w : String} {c : Char} (h : c ∈ (urlparse w).path.data) :
    c ≠ '?' ∧ c ≠ '#' := by
  unfold urlparse at h
  simp only [] at h
  have h1 := mem_takeWhile h
  have h2 := mem_takeWhile h1.2
  constructor
  · simpa using h1.1
  · simpa using h2.1

/-! ## Internal-link extraction facts -/

theorem internalStep_mem {b d : String} {acc : List String} {t : Tag}
    {u : String} (h : u ∈ internalStep b d acc t) :
    u ∈ acc ∨ TagYields b d t u := by
  unfold internalStep at h
  by_cases h1 : t.name ∈ linkTagNames
  · rw [if_pos h1] at h
    cases h2 : tagLink t with
    | none =>
      rw [h2] at h
      exact Or.inl h
    | some link =>
      rw [h2] at h
      dsimp only at h
      by_cases h3 : link ≠ ""
      · rw [if_pos h3] at h
        by_cases h4 : (urlparse (urljoin b link)).netloc = d
        · rw [if_pos h4] at h
          rcases mem_addToSetList.mp h with h5 | h5
          · exact Or.inl h5
          · exact Or.inr ⟨h1, link, h2, h3, h4, by rw [h5, h4]⟩
        · rw [if_neg h4] at h
          exact Or.inl h
      · rw [if_neg h3] at h
        exact Or.inl h
  · rw [if_neg h1] at h
    exact Or.inl h

theorem extract_internal_links_mem {html : Html} {b d u : String}
    (h : u ∈ extract_internal_links html b d) :
    ∃ t ∈ html.tags, TagYields b d t u := by
  unfold extract_internal_links at h
  suffices hgen : ∀ (tags : List Tag) (acc : List String),
      u ∈ tags.foldl (internalStep b d) acc →
      u ∈ acc ∨ ∃ t ∈ tags, TagYields b d t u by
    rcases hgen html.tags [] h with h2 | h2
    · simp at h2
    · exact h2
  intro tags
  induction tags with
  | nil => simp
  | cons t rest ih =>
    intro acc hm
    rcases ih (internalStep b d acc t) hm with h2 | ⟨t2, ht2, hy⟩
    · rcases internalStep_mem h2 with h3 | h3
      · exact Or.inl h3
      · exact Or.inr ⟨t, by simp, h3⟩
    · exact Or.inr ⟨t2, by simp [ht2], hy⟩

theorem listStartsWith_append (l t : List Char) :
    listStartsWith l (l ++ t) = true := by
  induction l with
  | nil => rfl
  | cons a rest ih => simp [listStartsWith, ih]

/-- The characters of every recorded internal URL after the first `:` start
with `://` followed by the origin domain. -/
theorem internalWitness_marker {b d link u : String}
    (h : InternalWitness b d link u) :
    listStartsWith (':' :: '/' :: '/' :: d.data)
      (u.data.dropWhile (fun c => c != ':')) = true := by
  obtain ⟨hnet, hu⟩ := h
  set w := urljoin b link with hw
  have hdata : u.data = (urlparse w).scheme.data ++
      (':' :: '/' :: '/' :: ((urlparse w).netloc.data ++ (urlparse w).path.data)) := by
    rw [hu]
    show ((urlparse w).scheme.data ++ "://".data ++ (urlparse w).netloc.data)
        ++ (urlparse w).path.data = _
    simp
  rw [hdata, dropWhile_append_all]
  · rw [List.dropWhile_cons_of_neg (by simp)]
    rw [← hnet]
    have : ':' :: '/' :: '/' :: ((urlparse w).netloc.data ++ (urlparse w).path.data)
        = (':' :: '/' :: '/' :: (urlparse w).netloc.data) ++ (urlparse w).path.data := by
      simp
    rw [this]
    exact listStartsWith_append _ _
  · intro c hc
    have : c ≠ ':' := (schemePart_safe hc).1
    simpa using this

/-! ## Policy-builder facts -/

theorem self_mem_addToSetList (x : String) (l : List String) :
    x ∈ addToSetList x l := by
  unfold addToSetList
  split
  · assumption
  · simp

/-- Keys produced by one insertion. -/
theorem cspInsert_keys {csp : List (String × List String)} {d dom : String}
    {k : String} (h : k ∈ (cspInsert csp d dom).map Prod.fst) :
    k = d ∨ k ∈ csp.map Prod.fst := by
  induction csp with
  | nil => simp [cspInsert] at h; simp [h]
  | cons kv rest ih =>
    obtain ⟨k0, v0⟩ := kv
    unfold cspInsert at h
    split at h
    · rename_i he
      simp only [List.map_cons, List.mem_cons] at h
      rcases h with h | h
      · left; rw [h, he]
      · right; simp [h]
    · simp only [List.map_cons, List.mem_cons] at h
      rcases h with h | h
      · right; simp [h]
      · rcases ih h with h | h
        · exact Or.inl h
        · right; simp [h]

/-- Every key of the classification fold comes from classifying some URL. -/
theorem foldl_csp_keys {urls : List String} :
    ∀ (acc : List (String × List String)) (k : String),
    k ∈ (urls.foldl (fun acc u =>
      cspInsert acc (categorize_resource u) (urlparse u).netloc) acc).map Prod.fst →
    k ∈ acc.map Prod.fst ∨ ∃ u ∈ urls, k = categorize_resource u := by
  induction urls with
  | nil => intro acc k h; exact Or.inl h
  | cons u rest ih =>
    intro acc k h
    simp only [List.foldl_cons] at h
    rcases ih _ k h with h2 | ⟨u2, hu2, he⟩
    · rcases cspInsert_keys h2 with h3 | h3
      · exact Or.inr ⟨u, by simp, h3⟩
      · exact Or.inl h3
    · exact Or.inr ⟨u2, by simp [hu2], he⟩

/-- Search for a list of extensions succeeds exactly when one of them occurs
followed by `?` or end of string. -/
theorem extOccursAny_iff {exts : List String} {url : String} :
    extSearch (exts.map String.data) url.data = true ↔
    ∃ e ∈ exts, ExtOccurs e url := by
  rw [extSearch_iff]
  unfold ExtOccurs
  constructor
  · rintro ⟨ed, hed, pre, suf, hs, h⟩
    obtain ⟨e, he, rfl⟩ := List.mem_map.mp hed
    exact ⟨e, he, pre, suf, hs, h⟩
  · rintro ⟨e, he, pre, suf, hs, h⟩
    exact ⟨e.data, List.mem_map_of_mem _ he, pre, suf, hs, h⟩

/-- A recorded internal URL never contains a query or fragment character. -/
theorem internalWitness_no_query {b d link u : String}
    (h : InternalWitness b d link u) : '?' ∉ u.data ∧ '#' ∉ u.data := by
  obtain ⟨hnet, hu⟩ := h
  set w := urljoin b link with hw
  have hdata : u.data = (urlparse w).scheme.data ++
      (':' :: '/' :: '/' :: ((urlparse w).netloc.data ++ (urlparse w).path.data)) := by
    rw [hu]
    show ((urlparse w).scheme.data ++ "://".data ++ (urlparse w).netloc.data)
        ++ (urlparse w).path.data = _
    simp
  have hsch : (urlparse w).scheme.data = schemePart w.data := rfl
  have hnl : (urlparse w).netloc.data = netlocPart (afterScheme w.data) := rfl
  constructor <;> intro hin <;> rw [hdata] at hin <;>
    rcases List.mem_append.mp hin with h1 | h1
  · rw [hsch] at h1
    exact (schemePart_safe h1).2.1 rfl
  · rcases List.mem_cons.mp h1 with h2 | h2
    · exact absurd h2 (by decide)
    · rcases List.mem_cons.mp h2 with h3 | h3
      · exact absurd h3 (by decide)
      · rcases List.mem_cons.mp h3 with h4 | h4
        · exact absurd h4 (by decide)
        · rcases List.mem_append.mp h4 with h5 | h5
          · rw [hnl] at h5
            exact (netlocPart_safe h5).2.1 rfl
          · exact (pathPart_safe h5).1 rfl
  · rw [hsch] at h1
    exact (schemePart_safe h1).2.2 rfl
  · rcases List.mem_cons.mp h1 with h2 | h2
    · exact absurd h2 (by decide)
    · rcases List.mem_cons.mp h2 with h3 | h3
      · exact absurd h3 (by decide)
      · rcases List.mem_cons.mp h3 with h4 | h4
        · exact absurd h4 (by decide)
        · rcases List.mem_append.mp h4 with h5 | h5
          · rw [hnl] at h5
            exact (netlocPart_safe h5).2.2 rfl
          · exact (pathPart_safe h5).2 rfl

/-! ## Claims -/

/-- C7: `classify("https://cdn.example.com/app.js")` is `script-src`, also
with a `?v=2` query; `a.woff2` is `font-src`; `data.json` is `connect-src`;
an extension-less page is `default-src`; and classification is a total pure
function of the URL string (it is a Lean function, so the same input always
yields the same directive and no failure is possible). -/
theorem claim_C7_classify_examples :
    categorize_resource "https://cdn.example.com/app.js" = "script-src" ∧
    categorize_resource "https://cdn.example.com/app.js?v=2" = "script-src" ∧
    categorize_resource "https://fonts.example.com/a.woff2" = "font-src" ∧
    categorize_resource "https://x.example.com/data.json" = "connect-src" ∧
    categorize_resource "https://x.example.com/page" = "default-src" ∧
    (∀ url : String, categorize_resource url = categorize_resource url) :=
  ⟨rfl, rfl, rfl, rfl, rfl, fun _ => rfl⟩

/-- C3 counterexample: the claim says an extension occurring after the query
marker (for example at the end of the query string) does not trigger its
rule, so `https://x.example.com/page?file=a.js` would have to fall through
to `default-src`; the code classifies it as `script-src`, because
`re.search` with the pattern `\.js(\?|$)` matches the `.js` at the end of
the whole string. -/
theorem claim_C3_counterexample :
    categorize_resource "https://x.example.com/page?file=a.js" = "script-src" ∧
    ("script-src" : String) ≠ "default-src" :=
  ⟨rfl, by decide⟩

/-- C3 as amended: classification tests the extension patterns in the fixed
priority order, case-sensitively, but each extension check matches `.ext`
immediately followed by `?` or the end of the string at ANY position of the
whole URL string, not only at the end of the path: in particular an
extension at the end of the query string also triggers its rule. -/
theorem claim_C3_amended (url : String) :
    (categorize_resource url = "script-src" ↔ ExtOccurs "js" url) ∧
    (categorize_resource url = "style-src" ↔
      ¬ ExtOccurs "js" url ∧ ExtOccurs "css" url) ∧
    (categorize_resource url = "font-src" ↔
      ¬ ExtOccurs "js" url ∧ ¬ ExtOccurs "css" url ∧
      (ExtOccurs "woff2" url ∨ ExtOccurs "woff" url ∨ ExtOccurs "ttf" url ∨
        ExtOccurs "otf" url)) ∧
    (categorize_resource url = "img-src" ↔
      ¬ ExtOccurs "js" url ∧ ¬ ExtOccurs "css" url ∧
      ¬ (ExtOccurs "woff2" url ∨ ExtOccurs "woff" url ∨ ExtOccurs "ttf" url ∨
        ExtOccurs "otf" url) ∧
      (ExtOccurs "jpg" url ∨ ExtOccurs "jpeg" url ∨ ExtOccurs "png" url ∨
        ExtOccurs "gif" url ∨ ExtOccurs "svg" url ∨ ExtOccurs "webp" url)) ∧
    (categorize_resource url = "connect-src" ↔
      ¬ ExtOccurs "js" url ∧ ¬ ExtOccurs "css" url ∧
      ¬ (ExtOccurs "woff2" url ∨ ExtOccurs "woff" url ∨ ExtOccurs "ttf" url ∨
        ExtOccurs "otf" url) ∧
      ¬ (ExtOccurs "jpg" url ∨ ExtOccurs "jpeg" url ∨ ExtOccurs "png" url ∨
        ExtOccurs "gif" url ∨ ExtOccurs "svg" url ∨ ExtOccurs "webp" url) ∧
      ExtOccurs "json" url) ∧
    (categorize_resource url = "default-src" ↔
      ¬ ExtOccurs "js" url ∧ ¬ ExtOccurs "css" url ∧
      ¬ (ExtOccurs "woff2" url ∨ ExtOccurs "woff" url ∨ ExtOccurs "ttf" url ∨
        ExtOccurs "otf" url) ∧
      ¬ (ExtOccurs "jpg" url ∨ ExtOccurs "jpeg" url ∨ ExtOccurs "png" url ∨
        ExtOccurs "gif" url ∨ ExtOccurs "svg" url ∨ ExtOccurs "webp" url) ∧
      ¬ ExtOccurs "json" url) := by
  have h1 : extSearch ["js".data] url.data = true ↔ ExtOccurs "js" url := by
    simpa using @extOccursAny_iff ["js"] url
  have h2 : extSearch ["css".data] url.data = true ↔ ExtOccurs "css" url := by
    simpa using @extOccursAny_iff ["css"] url
  have h3 : extSearch ["woff2".data, "woff".data, "ttf".data, "otf".data]
      url.data = true ↔
      (ExtOccurs "woff2" url ∨ ExtOccurs "woff" url ∨ ExtOccurs "ttf" url ∨
        ExtOccurs "otf" url) := by
    simpa using @extOccursAny_iff ["woff2", "woff", "ttf", "otf"] url
  have h4 : extSearch ["jpg".data, "jpeg".data, "png".data, "gif".data,
      "svg".data, "webp".data] url.data = true ↔
      (ExtOccurs "jpg" url ∨ ExtOccurs "jpeg" url ∨ ExtOccurs "png" url ∨
        ExtOccurs "gif" url ∨ ExtOccurs "svg" url ∨ ExtOccurs "webp" url) := by
    simpa using
      @extOccursAny_iff ["jpg", "jpeg", "png", "gif", "svg", "webp"] url
  have h5 : extSearch ["json".data] url.data = true ↔ ExtOccurs "json" url := by
    simpa using @extOccursAny_iff ["json"] url
  by_cases c1 : extSearch ["js".data] url.data = true
  · simp [categorize_resource, c1, h1.mp c1]
  · have n1 : ¬ ExtOccurs "js" url := fun h => c1 (h1.mpr h)
    by_cases c2 : extSearch ["css".data] url.data = true
    · simp [categorize_resource, c1, c2, n1, h2.mp c2]
    · have n2 : ¬ ExtOccurs "css" url := fun h => c2 (h2.mpr h)
      by_cases c3 : extSearch ["woff2".data, "woff".data, "ttf".data,
        "otf".data] url.data = true
      · simp [categorize_resource, c1, c2, c3, n1, n2, h3.mp c3]
      · have n3 := fun h => c3 (h3.mpr h)
        have n3a : ¬ ExtOccurs "woff2" url := fun h => n3 (Or.inl h)
        have n3b : ¬ ExtOccurs "woff" url := fun h => n3 (Or.inr (Or.inl h))
        have n3c : ¬ ExtOccurs "ttf" url := fun h => n3 (Or.inr (Or.inr (Or.inl h)))
        have n3d : ¬ ExtOccurs "otf" url := fun h => n3 (Or.inr (Or.inr (Or.inr h)))
        by_cases c4 : extSearch ["jpg".data, "jpeg".data, "png".data,
          "gif".data, "svg".data, "webp".data] url.data = true
        · simp [categorize_resource, c1, c2, c3, c4, n1, n2, n3a, n3b, n3c, n3d,
            h4.mp c4]
        · have n4 := fun h => c4 (h4.mpr h)
          have n4a : ¬ ExtOccurs "jpg" url := fun h => n4 (Or.inl h)
          have n4b : ¬ ExtOccurs "jpeg" url := fun h => n4 (Or.inr (Or.inl h))
          have n4c : ¬ ExtOccurs "png" url :=
            fun h => n4 (Or.inr (Or.inr (Or.inl h)))
          have n4d : ¬ ExtOccurs "gif" url :=
            fun h => n4 (Or.inr (Or.inr (Or.inr (Or.inl h))))
          have n4e : ¬ ExtOccurs "svg" url :=
            fun h => n4 (Or.inr (Or.inr (Or.inr (Or.inr (Or.inl h)))))
          have n4f : ¬ ExtOccurs "webp" url :=
            fun h => n4 (Or.inr (Or.inr (Or.inr (Or.inr (Or.inr h)))))
          by_cases c5 : extSearch ["json".data] url.data = true
          · simp [categorize_resource, c1, c2, c3, c4, c5, n1, n2, n3a, n3b, n3c,
              n3d, n4a, n4b, n4c, n4d, n4e, n4f, h5.mp c5]
          · have n5 : ¬ ExtOccurs "json" url := fun h => c5 (h5.mpr h)
            simp [categorize_resource, c1, c2, c3, c4, c5, n1, n2, n3a, n3b, n3c,
              n3d, n4a, n4b, n4c, n4d, n4e, n4f, n5]

/-- C6: every directive key present in a built policy carries the literal
`'self'` token in its origin list, and a directive no URL classified into
never appears in the policy at all. -/
theorem claim_C6_self_invariant (urls : List String) :
    (∀ kv ∈ build_csp urls, selfToken ∈ kv.2) ∧
    (∀ dir : String, (∀ u ∈ urls, categorize_resource u ≠ dir) →
      cspLookup (build_csp urls) dir = none) := by
  constructor
  · intro kv hkv
    simp only [build_csp] at hkv
    obtain ⟨kv1, hkv1, rfl⟩ := List.mem_map.mp hkv
    obtain ⟨kv0, _, rfl⟩ := List.mem_map.mp hkv1
    exact mem_sortStrings.mpr (self_mem_addToSetList _ _)
  · intro dir hdir
    unfold cspLookup
    rw [List.find?_eq_none.mpr]
    · rfl
    · intro kv hkv
      simp only [build_csp] at hkv
      obtain ⟨kv1, hkv1, rfl⟩ := List.mem_map.mp hkv
      obtain ⟨kv0, hkv0, rfl⟩ := List.mem_map.mp hkv1
      have hkey : kv0.1 ∈ (urls.foldl (fun acc u =>
          cspInsert acc (categorize_resource u) (urlparse u).netloc) []).map Prod.fst :=
        List.mem_map_of_mem _ hkv0
      rcases foldl_csp_keys [] kv0.1 hkey with h | ⟨u, hu, he⟩
      · simp at h
      · simp only [beq_iff_eq]
        intro hc
        exact hdir u hu (by rw [← he, hc])

/-- C6 witness: instantiation at a one-URL set, a populated directive and an
unpopulated directive. -/
theorem claim_C6_witness :
    selfToken ∈ (("script-src", [selfToken, "cdn.other.com"]) :
        String × List String).2 ∧
    cspLookup (build_csp ["https://cdn.other.com/a.js"]) "font-src" = none := by
  constructor
  · exact (claim_C6_self_invariant ["https://cdn.other.com/a.js"]).1
      ("script-src", [selfToken, "cdn.other.com"]) (by decide)
  · exact (claim_C6_self_invariant ["https://cdn.other.com/a.js"]).2
      "font-src" (by decide)

/-- C1 counterexample: in a crawl whose seed host is `example.com`, a page
referencing `https://notexample.com/x.js` does NOT put that URL into the
external URL set, contrary to the claim: the raw-text scan does find the
URL, but the external test excludes it because `example.com` is a substring
of `notexample.com` (Python `base_domain not in parsed.netloc`). -/
theorem claim_C1_counterexample :
    urlScan htmlC1.raw = ["https://notexample.com/x.js"] ∧
    extract_external_urls htmlC1 "example.com" = [] ∧
    containsSub "example.com".data "notexample.com".data = true :=
  ⟨rfl, rfl, rfl⟩

/-- C1 as amended: with seed host `example.com`, the URL
`https://notexample.com/x.js` is never produced by the internal-link scan
(exact host equality fails), but it is ALSO excluded from the external URL
set, because the external test uses substring containment and `example.com`
is a substring of `notexample.com`; the resource classifier itself would
classify the URL as `script-src` if it were consulted. -/
theorem claim_C1_amended :
    (∀ (html : Html) (b : String),
      "https://notexample.com/x.js" ∉ extract_internal_links html b "example.com") ∧
    extract_external_urls htmlC1 "example.com" = [] ∧
    categorize_resource "https://notexample.com/x.js" = "script-src" := by
  refine ⟨?_, rfl, rfl⟩
  intro html b h
  obtain ⟨t, ht, hy⟩ := extract_internal_links_mem h
  obtain ⟨_, link, _, _, hw⟩ := hy
  exact absurd (internalWitness_marker hw) (by decide)

/-- C1 witness: the internal-link exclusion instantiated at the concrete
page that references the URL. -/
theorem claim_C1_witness :
    "https://notexample.com/x.js" ∉
      extract_internal_links htmlC1 "https://example.com" "example.com" :=
  claim_C1_amended.1 htmlC1 "https://example.com"

/-- C9: every URL in the internal-link result comes from one of the scanned
tags (`a`/`link` via `href`, `script`/`img`/`iframe` via `src`): its
attribute value, resolved against the page URL, parses to a host exactly
equal to the origin domain, the recorded string is scheme + host + path of
that resolution, and it contains no query or fragment character. -/
theorem claim_C9_internal_extraction (html : Html) (b d u : String)
    (h : u ∈ extract_internal_links html b d) :
    (∃ t ∈ html.tags, TagYields b d t u) ∧ '?' ∉ u.data ∧ '#' ∉ u.data := by
  obtain ⟨t, ht, hy⟩ := extract_internal_links_mem h
  obtain ⟨hn, link, hl, hne, hwit⟩ := hy
  have hnq := internalWitness_no_query hwit
  exact ⟨⟨t, ht, hn, link, hl, hne, hwit⟩, hnq.1, hnq.2⟩

/-- C9 witness: instantiation at the seed page of the end-to-end scenario
and its recorded internal link. -/
theorem claim_C9_witness :
    (∃ t ∈ seedHtml.tags, TagYields "https://example.com" "example.com" t
      "https://example.com/page2") ∧
    '?' ∉ "https://example.com/page2".data ∧
    '#' ∉ "https://example.com/page2".data :=
  claim_C9_internal_extraction seedHtml "https://example.com" "example.com"
    "https://example.com/page2" (by decide)

/-- C4: a crawl starting from the empty visited set performs at most `N`
fetch attempts, the fetch log is exactly the final visited list (every fetch
attempt happens together with the insertion of that URL into the visited
set), and the visited set never exceeds `N` entries — for every fetch
collaborator, hence for every link-graph shape. -/
theorem claim_C4_visited_bound (fetch : String → Option Html)
    (base_url : String) (N : Nat) :
    (spider_and_audit fetch [] base_url N).2.2.length ≤ N ∧
    (spider_and_audit fetch [] base_url N).2.2
      = (spider_and_audit fetch [] base_url N).2.1 ∧
    (spider_and_audit fetch [] base_url N).2.1.length ≤ N := by
  obtain ⟨new, h1, h2, _, h4⟩ := spiderLoop_extends fetch base_url
    ((urlparse base_url).netloc) N [] [base_url] [] []
  have h4 := h4 (by simp)
  simp only [spider_and_audit]
  rw [h1, h2]
  simp only [List.nil_append, List.length_nil] at h4 ⊢
  exact ⟨by omega, trivial, by omega⟩

/-- C5: no URL is fetched twice: the fetch log of a crawl from an empty
visited set is duplicate-free (even when the queue holds duplicates or the
link graph is cyclic), a URL is added to the visited set at most once, and
dequeuing a URL already in the visited set drops it without any fetch or
state change. -/
theorem claim_C5_fetch_once (fetch : String → Option Html) (b d : String)
    (N : Nat) (queue : List String) :
    ((spiderLoop fetch b d N [] queue [] []).2.2).Nodup ∧
    ((spiderLoop fetch b d N [] queue [] []).1).Nodup ∧
    (∀ (visited rest ext log : List String) (url : String), url ∈ visited →
      spiderLoop fetch b d N visited (url :: rest) ext log =
      spiderLoop fetch b d N visited rest ext log) := by
  obtain ⟨new, h1, h2, h3, _⟩ := spiderLoop_extends fetch b d N [] queue [] []
  refine ⟨?_, ?_, ?_⟩
  · rw [h2]
    simpa using h3 (by simp)
  · rw [h1]
    simpa using h3 (by simp)
  · intro visited rest ext log url hv
    exact spiderLoop_skip fetch b d N visited rest ext log url hv

/-- C5 witness: a crawl whose queue holds the seed twice, and the discard
step at a concrete already-visited URL. -/
theorem claim_C5_witness :
    ((spiderLoop fetchC8 "https://example.com" "example.com" 25 []
      ["https://example.com", "https://example.com"] [] []).2.2).Nodup ∧
    spiderLoop fetchC8 "https://example.com" "example.com" 25
        ["https://example.com"] ["https://example.com"] [] ["https://example.com"]
      = spiderLoop fetchC8 "https://example.com" "example.com" 25
        ["https://example.com"] [] [] ["https://example.com"] := by
  have h := claim_C5_fetch_once fetchC8 "https://example.com" "example.com" 25
    ["https://example.com", "https://example.com"]
  exact ⟨h.1, (claim_C5_fetch_once fetchC8 "https://example.com" "example.com" 25
    []).2.2 ["https://example.com"] [] [] ["https://example.com"]
    "https://example.com" (by decide)⟩

set_option maxRecDepth 16000 in
/-- C2 counterexample: the Visited Set is the process-global `visited` of
the source, threaded through `spider_and_audit`; a second invocation in the
same process starts from the state the first one left and returns a
DIFFERENT policy for the same seed and budget (here the empty policy,
because the seed is already visited), contradicting the claim that the
result never depends on prior invocations. -/
theorem claim_C2_counterexample :
    (spider_and_audit fetchC8
        ((spider_and_audit fetchC8 [] "https://example.com" 25).2.1)
        "https://example.com" 25).1
      ≠ (spider_and_audit fetchC8 [] "https://example.com" 25).1 := by
  have hloop1 : spiderLoop fetchC8 "https://example.com"
      ((urlparse "https://example.com").netloc) 25 [] ["https://example.com"] [] []
      = (["https://example.com", "https://example.com/page2"],
        ["https://cdn.other.com/a.js", "https://img.other.com/b.png",
          "https://fonts.other.com/c.woff2"],
        ["https://example.com", "https://example.com/page2"]) :=
    spiderLoopFuel_sound _ _ _ _ 10 _ _ _ _ _ (by rfl)
  have hloop2 : spiderLoop fetchC8 "https://example.com"
      ((urlparse "https://example.com").netloc) 25
      ["https://example.com", "https://example.com/page2"]
      ["https://example.com"] [] []
      = (["https://example.com", "https://example.com/page2"], [], []) :=
    spiderLoopFuel_sound _ _ _ _ 10 _ _ _ _ _ (by rfl)
  simp only [spider_and_audit, hloop1, hloop2]
  decide

/-- C2 as amended: the Work Queue and the External URL Set are local to one
invocation (each run starts from `[seedURL]` and the empty external set by
construction), but the Visited Set is process-global state: an invocation
only ever EXTENDS the visited set it inherits, so state is carried from
prior crawls in the same process, and only a run whose inherited visited
set is empty has the initial state the specification describes. -/
theorem claim_C2_amended (fetch : String → Option Html)
    (visited0 : List String) (base_url : String) (max_pages : Nat) :
    ∃ new : List String,
      (spider_and_audit fetch visited0 base_url max_pages).2.1
        = visited0 ++ new := by
  obtain ⟨new, h1, _, _, _⟩ := spiderLoop_extends fetch base_url
    ((urlparse base_url).netloc) max_pages visited0 [base_url] [] []
  exact ⟨new, by simp only [spider_and_audit]; exact h1⟩

/-- C10: a fetch that succeeds with empty content steps the crawl exactly
like a failed fetch: the URL still enters the visited set and the fetch log,
link extraction is skipped, nothing is merged into the external set or the
queue, and the crawl continues; the second conjunct is the identical step
equation for a fetcher that fails on that URL. -/
theorem claim_C10_empty_content (fetch fetch2 : String → Option Html)
    (b d : String) (N : Nat) (visited rest ext log : List String)
    (url : String) (html : Html) (hf : fetch url = some html)
    (hraw : html.raw = "") (hf2 : fetch2 url = none) (hv : url ∉ visited)
    (hN : visited.length < N) :
    spiderLoop fetch b d N visited (url :: rest) ext log
      = spiderLoop fetch b d N (visited ++ [url]) rest ext (log ++ [url]) ∧
    spiderLoop fetch2 b d N visited (url :: rest) ext log
      = spiderLoop fetch2 b d N (visited ++ [url]) rest ext (log ++ [url]) := by
  constructor
  · rw [spiderLoop]
    simp only [dif_pos hN, if_neg hv, hf, if_pos hraw]
  · rw [spiderLoop]
    simp only [dif_pos hN, if_neg hv, hf2]

/-- C10 witness: the step equations at a concrete state for the
empty-content fetcher and the failing fetcher. -/
theorem claim_C10_witness :
    spiderLoop fetchEmpty "https://example.com" "example.com" 5 []
        ["https://example.com"] [] []
      = spiderLoop fetchEmpty "https://example.com" "example.com" 5
        ["https://example.com"] [] [] ["https://example.com"] ∧
    spiderLoop fetchNone "https://example.com" "example.com" 5 []
        ["https://example.com"] [] []
      = spiderLoop fetchNone "https://example.com" "example.com" 5
        ["https://example.com"] [] [] ["https://example.com"] := by
  have h := claim_C10_empty_content fetchEmpty fetchNone "https://example.com"
    "example.com" 5 [] [] [] [] "https://example.com" emptyHtml rfl rfl rfl
    (by decide) (by decide)
  simpa using h

set_option maxRecDepth 16000 in
/-- C8: the end-to-end scenario: seed page at origin `example.com`
references `https://cdn.other.com/a.js`, `https://img.other.com/b.png` and
the same-origin link `https://example.com/page2`, which in turn references
`https://fonts.other.com/c.woff2`; crawling with `maxPages = 25` yields a
policy whose `script-src`, `img-src` and `font-src` entries are exactly
`['self', cdn.other.com]`, `['self', img.other.com]` and
`['self', fonts.other.com]`. -/
theorem claim_C8_end_to_end :
    cspLookup (spider_and_audit fetchC8 [] "https://example.com" 25).1
        "script-src" = some [selfToken, "cdn.other.com"] ∧
    cspLookup (spider_and_audit fetchC8 [] "https://example.com" 25).1
        "img-src" = some [selfToken, "img.other.com"] ∧
    cspLookup (spider_and_audit fetchC8 [] "https://example.com" 25).1
        "font-src" = some [selfToken, "fonts.other.com"] := by
  have hloop : spiderLoop fetchC8 "https://example.com"
      ((urlparse "https://example.com").netloc) 25 [] ["https://example.com"] [] []
      = (["https://example.com", "https://example.com/page2"],
        ["https://cdn.other.com/a.js", "https://img.other.com/b.png",
          "https://fonts.other.com/c.woff2"],
        ["https://example.com", "https://example.com/page2"]) :=
    spiderLoopFuel_sound _ _ _ _ 10 _ _ _ _ _ (by rfl)
  simp only [spider_and_audit, hloop]
  exact ⟨rfl, rfl, rfl⟩

end CSPGen
